import Mathlib

/-!
Verification development for a client-side route matcher and transition
engine (vue-router 3.4.9 style source).  JavaScript functions are embedded
shallowly as Lean functions; machine-level JS details (object identity,
`undefined`) are modelled with `Option` and explicit id fields.
-/

namespace VueRouter

/-! ## resolveQueue (history/base.js lines 323-351)

`resolveQueue` compares the current and the target matched-record chains
index by index and splits at the first index where they differ.  JS
compares records by object identity; records are represented here by an
arbitrary type with decidable equality (in the engine model, by numeric
record ids).  The JS loop runs `i` from `0` to `max(len c, len n) - 1` and
breaks at the first `current[i] !== next[i]`; comparing a present element
with `undefined` (one list exhausted) always differs, and the loop index
stops at `max` when no difference is found. -/

/-- The split index computed by the `for` loop of `resolveQueue`:
the first index where the two chains differ, where a present record is
never equal to `undefined`; if one chain is a prefix of the other the
index is the shorter length, and if the chains are equal it is their
common length (`max` reached without a break). -/
def resolveQueueIdx {α : Type} [DecidableEq α] : List α → List α → Nat
  | x :: xs, y :: ys => if x = y then resolveQueueIdx xs ys + 1 else 0
  | _, _ => 0

/-- `resolveQueue(current, next)` from history/base.js: returns
`(updated, activated, deactivated) = (next.slice(0,i), next.slice(i), current.slice(i))`. -/
def resolveQueue {α : Type} [DecidableEq α] (current next : List α) :
    List α × List α × List α :=
  let i := resolveQueueIdx current next
  (next.take i, next.drop i, current.drop i)

theorem resolveQueueIdx_le_left {α : Type} [DecidableEq α] :
    ∀ (c n : List α), resolveQueueIdx c n ≤ c.length
  | [], _ => by simp [resolveQueueIdx]
  | _ :: _, [] => by simp [resolveQueueIdx]
  | x :: xs, y :: ys => by
    by_cases h : x = y
    · simpa [resolveQueueIdx, h, Nat.succ_le_succ_iff] using resolveQueueIdx_le_left xs ys
    · simp [resolveQueueIdx, h]

theorem resolveQueueIdx_le_right {α : Type} [DecidableEq α] :
    ∀ (c n : List α), resolveQueueIdx c n ≤ n.length
  | [], _ => by simp [resolveQueueIdx]
  | _ :: _, [] => by simp [resolveQueueIdx]
  | x :: xs, y :: ys => by
    by_cases h : x = y
    · simpa [resolveQueueIdx, h, Nat.succ_le_succ_iff] using resolveQueueIdx_le_right xs ys
    · simp [resolveQueueIdx, h]

theorem resolveQueueIdx_agree {α : Type} [DecidableEq α] :
    ∀ (c n : List α) (j : Nat), j < resolveQueueIdx c n → c.get? j = n.get? j
  | [], _, j, h => by simp [resolveQueueIdx] at h
  | _ :: _, [], j, h => by simp [resolveQueueIdx] at h
  | x :: xs, y :: ys, j, h => by
    by_cases hxy : x = y
    · cases j with
      | zero => simp [hxy]
      | succ j =>
        simp only [resolveQueueIdx, hxy, if_true] at h
        simpa using resolveQueueIdx_agree xs ys j (by omega)
    · simp [resolveQueueIdx, hxy] at h

theorem resolveQueueIdx_diverge {α : Type} [DecidableEq α] :
    ∀ (c n : List α), resolveQueueIdx c n < max c.length n.length →
      c.get? (resolveQueueIdx c n) ≠ n.get? (resolveQueueIdx c n)
  | [], [], h => by simp at h
  | [], _ :: _, _ => by simp [resolveQueueIdx]
  | _ :: _, [], _ => by simp [resolveQueueIdx]
  | x :: xs, y :: ys, h => by
    by_cases hxy : x = y
    · simp only [resolveQueueIdx, hxy, if_true] at h ⊢
      have := resolveQueueIdx_diverge xs ys (by
        simp only [List.length_cons, Nat.max_def] at h
        simp only [Nat.max_def]
        split at h <;> split <;> omega)
      simpa using this
    · simp [resolveQueueIdx, hxy]

/-! ## Wildcard reordering in createRouteMap (create-route-map.js lines 39-46)

After all route records are registered, createRouteMap runs
```
for (let i = 0, l = pathList.length; i < l; i++) {
  if (pathList[i] === '*') {
    pathList.push(pathList.splice(i, 1)[0])
    l--
    i--
  }
}
```
Each entry that is exactly `'*'` is removed at its position and pushed to
the end; the decremented bound `l` keeps the loop from rescanning pushed
entries.  This scans the original entries left to right, keeping
non-`'*'` entries in place and accumulating the `'*'` entries after them. -/

/-- Tail worker for the wildcard loop: `keep` entries stay in order,
`'*'` entries are collected in `pushed` (in scan order) and appended
after the scanned region. -/
def ensureWildcardLastGo : List String → List String → List String
  | [], pushed => pushed
  | p :: rest, pushed =>
    if p = "*" then ensureWildcardLastGo rest (pushed ++ [p])
    else p :: ensureWildcardLastGo rest pushed

/-- The wildcard-to-the-end loop of `createRouteMap`. -/
def ensureWildcardLast (pathList : List String) : List String :=
  ensureWildcardLastGo pathList []

theorem allStar_eq_of_length :
    ∀ (a b : List String), (∀ q ∈ a, q = "*") → (∀ q ∈ b, q = "*") →
      a.length = b.length → a = b
  | [], [], _, _, _ => rfl
  | x :: xs, y :: ys, ha, hb, hl => by
    have hx : x = "*" := ha x (by simp)
    have hy : y = "*" := hb y (by simp)
    have ihxs : ∀ q ∈ xs, q = "*" := fun q hq => ha q (by simp [hq])
    have ihys : ∀ q ∈ ys, q = "*" := fun q hq => hb q (by simp [hq])
    have : xs = ys := allStar_eq_of_length xs ys ihxs ihys (by simpa using hl)
    rw [hx, hy, this]

theorem mem_filter_star {l : List String} {q : String}
    (hq : q ∈ l.filter (fun p => p = "*")) : q = "*" := by
  have := List.of_mem_filter hq
  simpa using this

theorem ensureWildcardLastGo_eq :
    ∀ (l pushed : List String), (∀ q ∈ pushed, q = "*") →
      ensureWildcardLastGo l pushed =
        l.filter (fun p => p ≠ "*") ++ (l.filter (fun p => p = "*") ++ pushed)
  | [], pushed, _ => by simp [ensureWildcardLastGo]
  | p :: rest, pushed, hp => by
    by_cases h : p = "*"
    · subst h
      have hp' : ∀ q ∈ pushed ++ ["*"], q = "*" := by
        intro q hq
        rcases List.mem_append.mp hq with h1 | h1
        · exact hp q h1
        · simpa using h1
      simp only [ensureWildcardLastGo, if_pos rfl]
      rw [ensureWildcardLastGo_eq rest (pushed ++ ["*"]) hp']
      have hblocks :
          rest.filter (fun p => p = "*") ++ (pushed ++ ["*"]) =
            ("*" :: rest.filter (fun p => p = "*")) ++ pushed := by
        apply allStar_eq_of_length
        · intro q hq
          rcases List.mem_append.mp hq with h1 | h1
          · exact mem_filter_star h1
          · rcases List.mem_append.mp h1 with h2 | h2
            · exact hp q h2
            · simpa using h2
        · intro q hq
          rcases List.mem_append.mp hq with h1 | h1
          · rcases List.mem_cons.mp h1 with h2 | h2
            · exact h2
            · exact mem_filter_star h2
          · exact hp q h1
        · simp
          omega
      simp only [List.filter_cons]
      norm_num
      rw [hblocks]
      simp
    · simp only [ensureWildcardLastGo, if_neg h]
      rw [ensureWildcardLastGo_eq rest pushed hp]
      simp [List.filter_cons, h]

/-- The wildcard loop is a stable partition: non-`'*'` entries first, in
their original relative order, then the `'*'` entries. -/
theorem ensureWildcardLast_eq (l : List String) :
    ensureWildcardLast l =
      l.filter (fun p => p ≠ "*") ++ l.filter (fun p => p = "*") := by
  have := ensureWildcardLastGo_eq l [] (by intro q hq; simp at hq)
  simpa [ensureWildcardLast] using this

/-! ## JS string primitives

JS string operations are re-implemented over the character list of a
`String` (JS `split`/`slice`/`replace` semantics); the resulting
functions compute by structural recursion. -/

/-- Worker for `splitChar`. -/
def splitCharGo (sep : Char) : List Char → List Char → List String
  | [], acc => [String.mk acc.reverse]
  | c :: rest, acc =>
    if c = sep then String.mk acc.reverse :: splitCharGo sep rest []
    else splitCharGo sep rest (c :: acc)

/-- JS `s.split(sep)` for a one-character separator (`''.split(x) = ['']`). -/
def splitChar (sep : Char) (s : String) : List String :=
  splitCharGo sep s.data []

/-- JS `s.charAt(0)` as an optional character (`undefined` for `''`). -/
def headChar? (s : String) : Option Char := s.data.head?

/-- JS `s.slice(1)`. -/
def dropFirst (s : String) : String := String.mk s.data.tail

/-- JS `s.slice(0, -1)`. -/
def dropLastChar (s : String) : String := String.mk s.data.dropLast

/-- Last character, for `endsWith` tests on one-character suffixes. -/
def lastChar? (s : String) : Option Char := s.data.getLast?

/-- JS `s.replace(/x/g, y)` for one-character `x`/`y`. -/
def replaceChar (x y : Char) (s : String) : String :=
  String.mk (s.data.map (fun c => if c = x then y else c))

/-- Worker for `collapseSlashes`: left-to-right non-overlapping
replacement of `//` by `/`. -/
def collapseSlashesGo : List Char → List Char
  | '/' :: '/' :: rest => '/' :: collapseSlashesGo rest
  | c :: rest => c :: collapseSlashesGo rest
  | [] => []

/-- JS `path.replace(/\/\//g, '/')`. -/
def collapseSlashes (s : String) : String := String.mk (collapseSlashesGo s.data)

/-- JS `s.trim()`. -/
def trimStr (s : String) : String :=
  String.mk (((s.data.dropWhile Char.isWhitespace).reverse.dropWhile Char.isWhitespace).reverse)

/-! ## JS value helpers -/

/-- JS truthiness of an optional string field: `undefined` and `''` are falsy. -/
def strTruthy : Option String → Bool
  | some s => s ≠ ""
  | none => false

/-- Modelled JS `decodeURIComponent` (wrapped by util/query.js `decode`,
which falls back to the input on decode errors): the identity on strings
without percent-escapes, which is all this development evaluates. -/
def decode (s : String) : String := s

/-- Modelled RFC3986-flavoured `encodeURIComponent` of util/query.js:
the identity on unreserved-ASCII strings, which is all this development
evaluates. -/
def encode (s : String) : String := s

/-- JS object-assignment into a string map: overwrite an existing key in
place, otherwise append (JS objects preserve string-key insertion order). -/
def setParam (ps : List (String × String)) (k v : String) : List (String × String) :=
  if ps.any (fun kv => kv.1 = k) then
    ps.map (fun kv => if kv.1 = k then (k, v) else kv)
  else ps ++ [(k, v)]

/-- util/misc.js `extend(a, b)`: every key of `b` assigned into `a`. -/
def extendParams (a b : List (String × String)) : List (String × String) :=
  b.foldl (fun acc kv => setParam acc kv.1 kv.2) a

/-! ## util/path.js -/

/-- `parsePath(path)`: split a raw path into path, query string (text after
the first `?`, without the `?`) and hash (text from the first `#`,
including the `#`).  The hash is cut first, then the query. -/
def parsePath (p : String) : String × String × String :=
  let cut1 : String × String :=
    match splitChar '#' p with
    | [] => ("", "")
    | [x] => (x, "")
    | x :: rest => (x, "#" ++ String.intercalate "#" rest)
  let cut2 : String × String :=
    match splitChar '?' cut1.1 with
    | [] => ("", "")
    | [x] => (x, "")
    | x :: rest => (x, String.intercalate "?" rest)
  (cut2.1, cut2.2, cut1.2)

/-- `resolvePath(relative, base, append)` from util/path.js: absolute
paths pass through; `?`/`#` suffixes append to the base; otherwise the
base is split on `/` into a stack (dropping its last segment unless
`append` is set and it is nonempty), the relative segments are folded in
(`..` pops, `.` is skipped), and a leading empty segment is restored. -/
def resolvePath (relative base : String) (append : Bool) : String :=
  let firstChar := headChar? relative
  if firstChar = some '/' then relative
  else if firstChar = some '?' ∨ firstChar = some '#' then base ++ relative
  else
    let stack0 := splitChar '/' base
    let lastFalsy : Bool := match stack0.getLast? with | some s => s = "" | none => true
    let stack1 := if !append || lastFalsy then stack0.dropLast else stack0
    let segments := splitChar '/' (if headChar? relative = some '/' then dropFirst relative else relative)
    let stack2 := segments.foldl
      (fun st seg =>
        if seg = ".." then st.dropLast
        else if seg = "." then st
        else st ++ [seg]) stack1
    let stack3 := if stack2.head? ≠ some "" then "" :: stack2 else stack2
    String.intercalate "/" stack3

/-- `cleanPath(path)`: collapse `//` (single left-to-right replacement pass). -/
def cleanPath (path : String) : String := collapseSlashes path

/-! ## util/query.js -/

/-- A query-map value: string, array of string-or-null, or null (a key
with no `=`). -/
inductive QVal where
  | qs (s : String)
  | qarr (l : List (Option String))
  | qnull
deriving DecidableEq, Repr

/-- A query map: string keys in insertion order. -/
abbrev QueryM := List (String × QVal)

/-- Accumulation step of `parseQuery`: a fresh key is appended; a second
occurrence turns the entry into an array; further occurrences push. -/
def queryInsert (res : QueryM) (k : String) (v : Option String) : QueryM :=
  match res.lookup k with
  | none => res ++ [(k, match v with | some s => QVal.qs s | none => QVal.qnull)]
  | some (QVal.qarr l) =>
    res.map (fun kv => if kv.1 = k then (k, QVal.qarr (l ++ [v])) else kv)
  | some (QVal.qs s) =>
    res.map (fun kv => if kv.1 = k then (k, QVal.qarr [some s, v]) else kv)
  | some QVal.qnull =>
    res.map (fun kv => if kv.1 = k then (k, QVal.qarr [none, v]) else kv)

/-- The default `parseQuery` of util/query.js. -/
def parseQuery (query : String) : QueryM :=
  let q := trimStr query
  let q :=
    if headChar? q = some '?' ∨ headChar? q = some '#' ∨ headChar? q = some '&' then dropFirst q
    else q
  if q = "" then []
  else
    (splitChar '&' q).foldl
      (fun res par =>
        match splitChar '=' (replaceChar '+' ' ' par) with
        | [] => res
        | key :: rest =>
          queryInsert res (decode key)
            (if rest.length > 0 then some (decode (String.intercalate "=" rest)) else none))
      []

/-- `castQueryParamValue`: null and objects pass through, other values are
stringified; in this model the structured values are already strings. -/
def castQueryParamValue (v : QVal) : QVal := v

/-- JS assignment `parsedQuery[key] = value`: overwrite in place or append. -/
def querySet (res : QueryM) (k : String) (v : QVal) : QueryM :=
  if res.any (fun kv => kv.1 = k) then
    res.map (fun kv => if kv.1 = k then (k, v) else kv)
  else res ++ [(k, v)]

/-- `resolveQuery(query, extraQuery, _parseQuery)`: parse the query string
(with a user parser when supplied; a parser failure — modelled by `none` —
is caught and yields the empty map) and assign every structured entry over
the parsed map. -/
def resolveQuery (query : String) (extraQuery : Option QueryM)
    (pq : Option (String → Option QueryM)) : QueryM :=
  let parsedQuery :=
    match pq with
    | some f => (f query).getD []
    | none => parseQuery query
  (extraQuery.getD []).foldl
    (fun acc kv => querySet acc kv.1 (castQueryParamValue kv.2)) parsedQuery

/-- `stringifyQuery(obj)`: `?`-prefixed `&`-join of the per-key encodings;
null values encode as the bare key, arrays list their elements. -/
def stringifyQuery (obj : QueryM) : String :=
  let parts := (obj.map (fun kv =>
    match kv.2 with
    | QVal.qnull => encode kv.1
    | QVal.qs s => encode kv.1 ++ "=" ++ encode s
    | QVal.qarr l =>
      String.intercalate "&" (l.map (fun o =>
        match o with
        | none => encode kv.1
        | some s => encode kv.1 ++ "=" ++ encode s)))).filter (fun x => x ≠ "")
  let res := String.intercalate "&" parts
  if res ≠ "" then "?" ++ res else ""

/-! ## Compiled path patterns (modelling the external path-to-regexp library)

create-route-map.js compiles each normalized path with `Regexp(path, [],
options)` from the external path-to-regexp package.  The fragment of its
documented behaviour exercised here: `/`-split segments, where a
`:name` segment captures one nonempty path segment under `name`, a `*`
captures the remainder under the numeric key 0 (read back as
`pathMatch`), and other segments match literally; the empty pattern
matches `''` and `'/'`.  `Regexp.compile` (used by util/params.js
`fillParams`) substitutes parameter values back and throws when a
required parameter is missing or empty. -/

inductive Seg where
  | stat (s : String)
  | param (n : String)
  | star
deriving DecidableEq, Repr

/-- Compile a path pattern into segments (model of `Regexp(path, [], opts)`). -/
def patSegs (path : String) : List Seg :=
  (splitChar '/' path).map (fun s =>
    if s = "*" then Seg.star
    else if headChar? s = some ':' then Seg.param (dropFirst s)
    else Seg.stat s)

/-- The ordered capture names of a compiled pattern (`regex.keys`).  A `*`
key is the number 0 in path-to-regexp and never equals a string parameter
key, so it is omitted from the name list. -/
def regexKeys (segs : List Seg) : List String :=
  segs.filterMap (fun s => match s with | Seg.param n => some n | _ => none)

/-- Segment-wise matching with captures (model of `path.match(regex)`
plus the capture loop of create-matcher.js `matchRoute`); captured values
go through `decode`. -/
def matchSegs : List Seg → List String → Option (List (String × String))
  | [], [] => some []
  | [], _ :: _ => none
  | Seg.star :: _, xs => some [("pathMatch", decode (String.intercalate "/" xs))]
  | Seg.stat s :: ps, x :: xs => if x = s then matchSegs ps xs else none
  | Seg.param n :: ps, x :: xs =>
    if x ≠ "" then (matchSegs ps xs).map (fun rest => (n, decode x) :: rest) else none
  | _ :: _, [] => none

/-- `matchRoute(regex, path, params)` of create-matcher.js: test the
compiled pattern and, on success, assign every capture into `params`. -/
def matchRoute (regex : List Seg) (path : String) (params : List (String × String)) :
    Bool × List (String × String) :=
  let m :=
    if regex = [Seg.stat ""] then (if path = "" ∨ path = "/" then some [] else none)
    else matchSegs regex (splitChar '/' path)
  match m with
  | none => (false, params)
  | some caps => (true, caps.foldl (fun acc kv => setParam acc kv.1 kv.2) params)

/-- util/params.js `fillParams(path, params, routeMsg)`: fill the compiled
pattern with parameter values; a missing or empty required parameter makes
the filler throw, which is caught and yields `''`.  (`params[0] =
params.pathMatch` feeds the `*` key.) -/
def fillSeg (params : List (String × String)) : Seg → Option String
  | Seg.stat s => some s
  | Seg.param n =>
    match params.lookup n with
    | some v => if v ≠ "" then some v else none
    | none => none
  | Seg.star => params.lookup "pathMatch"

def fillParams (path : String) (params : List (String × String)) : String :=
  match (patSegs path).mapM (fillSeg params) with
  | some segs => String.intercalate "/" segs
  | none => ""

/-! ## Route records and locations

Record fields follow create-route-map.js `addRouteRecord`.  Renderable
units are numeric component tags; the transient `instances`/`enteredCbs`
registries (renderer-owned, untouched by the matcher) and the `props`
pass-through are omitted.  A `redirect` option that is a function is
modelled by its observable behaviour on invocation: the value it returns
(`fnRet`) or the exception it throws (`fnThrow`). -/

/-- The object form of a redirect target.  `query`/`hash`/`params` are
`some` exactly when the property is present (`hasOwnProperty`), since the
redirect spec overrides the original location only where explicitly set. -/
structure RedirObj where
  name : Option String := none
  path : Option String := none
  query : Option QueryM := none
  hash : Option String := none
  params : Option (List (String × String)) := none
deriving DecidableEq, Repr

/-- The value a redirect option evaluates to: a path string, an object, or
anything else (invalid). -/
inductive RedirVal where
  | vStr (s : String)
  | vObj (o : RedirObj)
  | vBad
deriving DecidableEq, Repr

/-- The `redirect` option of a route record: a direct value, or a function
modelled by what its single invocation does. -/
inductive RedirectSpec where
  | stat (v : RedirVal)
  | fnRet (v : RedirVal)
  | fnThrow (e : Nat)
deriving DecidableEq, Repr

/-! A compiled route record (create-route-map.js lines 122-149), with its
optional parent back-reference as the mutual type `MParent` (an inlined
`Option`, so that chain walks are structurally recursive). -/
mutual
inductive MRecord where
  | mk (path : String) (regex : List Seg) (components : List (String × Option Nat))
      (name : Option String) (parent : MParent) (matchAs : Option String)
      (redirect : Option RedirectSpec) (beforeEnter : Option Nat)
      (meta : List (String × String))
inductive MParent where
  | root
  | node (r : MRecord)
end

def MRecord.path : MRecord → String
  | .mk p _ _ _ _ _ _ _ _ => p

def MRecord.regex : MRecord → List Seg
  | .mk _ r _ _ _ _ _ _ _ => r

def MRecord.components : MRecord → List (String × Option Nat)
  | .mk _ _ c _ _ _ _ _ _ => c

def MRecord.name : MRecord → Option String
  | .mk _ _ _ n _ _ _ _ _ => n

def MRecord.parent : MRecord → MParent
  | .mk _ _ _ _ p _ _ _ _ => p

def MRecord.matchAs : MRecord → Option String
  | .mk _ _ _ _ _ m _ _ _ => m

def MRecord.redirect : MRecord → Option RedirectSpec
  | .mk _ _ _ _ _ _ r _ _ => r

def MRecord.beforeEnter : MRecord → Option Nat
  | .mk _ _ _ _ _ _ _ b _ => b

def MRecord.meta : MRecord → List (String × String)
  | .mk _ _ _ _ _ _ _ _ m => m

/-- The optional-parent argument passed by `addRouteRecord`. -/
def toMParent : Option MRecord → MParent
  | none => MParent.root
  | some r => MParent.node r

/-- A resolved Route (spec §3; util/route.js is not part of the sources,
so the shape follows the specification: concrete path, optional name,
hash, query map, params map, full path, root-to-leaf matched chain, and
the optional redirected-from path). -/
structure MRoute where
  name : Option String := none
  path : String := "/"
  hash : String := ""
  query : QueryM := []
  params : List (String × String) := []
  fullPath : String := "/"
  matched : List MRecord := []
  redirectedFrom : Option String := none

/-- A (possibly raw) structured Location (flow type `Location`). -/
structure MLoc where
  _normalized : Bool := false
  name : Option String := none
  path : Option String := none
  hash : Option String := none
  query : Option QueryM := none
  params : Option (List (String × String)) := none
  append : Bool := false
  replace : Bool := false
deriving DecidableEq, Repr

/-- `RawLocation = string | Location`. -/
inductive RawLoc where
  | str (s : String)
  | loc (l : MLoc)
deriving DecidableEq, Repr

/-- Full path of a Location (spec §3: path + query + hash), used for the
`redirectedFrom` provenance of a Route. -/
def locFullPath (l : MLoc) : String :=
  (l.path.getD "/") ++ stringifyQuery (l.query.getD []) ++ (l.hash.getD "")

/-! ## util/location.js normalizeLocation -/

/-- The relative-params branch of `normalizeLocation` (raw has params but
no path, and a current route exists): merge current params over raw
params; keep navigating by name when current is named, else refill the
deepest matched record's raw pattern; the merged params are only stored
back in the named case. -/
def relativeParamsBranch (next : MLoc) (cur : MRoute) : MLoc :=
  let next := { next with _normalized := true }
  let params := extendParams cur.params (next.params.getD [])
  if strTruthy cur.name then { next with name := cur.name, params := some params }
  else if cur.matched.length ≠ 0 then
    let rawPath := ((cur.matched.getLast?).map MRecord.path).getD ""
    { next with path := some (fillParams rawPath params) }
  else next

/-- The path-resolution branch of `normalizeLocation`: split the raw path
into path/query/hash, resolve the path against the current route's path,
merge the structured query over the parsed one, normalize the hash to a
leading `#`, and flag the result normalized. -/
def pathBranch (next : MLoc) (current : Option MRoute) (append : Bool)
    (pq : Option (String → Option QueryM)) : MLoc :=
  let parsed := parsePath (next.path.getD "")
  let basePath :=
    match current with
    | some c => if c.path ≠ "" then c.path else "/"
    | none => "/"
  let path := if parsed.1 ≠ "" then resolvePath parsed.1 basePath (append || next.append)
              else basePath
  let query := resolveQuery parsed.2.1 next.query pq
  let hash0 := if strTruthy next.hash then next.hash.getD "" else parsed.2.2
  let hash := if hash0 ≠ "" ∧ ¬ hash0.startsWith "#" then "#" ++ hash0 else hash0
  { _normalized := true, path := some path, query := some query, hash := some hash }

/-- util/location.js `normalizeLocation(raw, current, append, router)`.
The router argument is represented by its only use: the optional custom
query parser `router.options.parseQuery`.  An already-normalized input is
returned unchanged; a named input is returned as a shallow copy with a
copied params map (the identity under value semantics); otherwise the
relative-params or path-resolution branch applies. -/
def normalizeLocation (raw : RawLoc) (current : Option MRoute) (append : Bool)
    (pq : Option (String → Option QueryM)) : MLoc :=
  let next : MLoc := match raw with
    | .str s => { path := some s }
    | .loc l => l
  if next._normalized then next
  else if strTruthy next.name then next
  else if !(strTruthy next.path) && next.params.isSome && current.isSome then
    match current with
    | some cur => relativeParamsBranch next cur
    | none => next  -- unreachable: the branch guard requires a current route
  else pathBranch next current append pq

/-! ## create-route-map.js -/

/-- A user route configuration (flow type `RouteConfig`).  `aliases`
models the `alias` option already in array form (a single string is
wrapped by the source); `strict` is `pathToRegexpOptions.strict`. -/
inductive RouteConfig where
  | mk (path : String) (name : Option String) (component : Option Nat)
      (components : Option (List (String × Option Nat)))
      (redirect : Option RedirectSpec) (aliases : List String)
      (children : List RouteConfig) (beforeEnter : Option Nat)
      (meta : List (String × String)) (strict : Bool)

def RouteConfig.path : RouteConfig → String
  | .mk p _ _ _ _ _ _ _ _ _ => p

def RouteConfig.name : RouteConfig → Option String
  | .mk _ n _ _ _ _ _ _ _ _ => n

def RouteConfig.component : RouteConfig → Option Nat
  | .mk _ _ c _ _ _ _ _ _ _ => c

def RouteConfig.components : RouteConfig → Option (List (String × Option Nat))
  | .mk _ _ _ c _ _ _ _ _ _ => c

def RouteConfig.redirect : RouteConfig → Option RedirectSpec
  | .mk _ _ _ _ r _ _ _ _ _ => r

def RouteConfig.aliases : RouteConfig → List String
  | .mk _ _ _ _ _ a _ _ _ _ => a

def RouteConfig.children : RouteConfig → List RouteConfig
  | .mk _ _ _ _ _ _ c _ _ _ => c

def RouteConfig.beforeEnter : RouteConfig → Option Nat
  | .mk _ _ _ _ _ _ _ b _ _ => b

def RouteConfig.meta : RouteConfig → List (String × String)
  | .mk _ _ _ _ _ _ _ _ m _ => m

def RouteConfig.strict : RouteConfig → Bool
  | .mk _ _ _ _ _ _ _ _ _ s => s

/-- The three route-table indexes built by `createRouteMap`. -/
structure RTables where
  pathList : List String := []
  pathMap : List (String × MRecord) := []
  nameMap : List (String × MRecord) := []

/-- `normalizePath(path, parent, strict)`: drop a single trailing slash
unless strict, pass absolute paths and parentless paths through,
otherwise concatenate with the parent's path and collapse `//`. -/
def normalizePath (path : String) (parent : Option MRecord) (strict : Bool) : String :=
  let path := if ¬ strict then (if lastChar? path = some '/' then dropLastChar path else path) else path
  if headChar? path = some '/' then path
  else
    match parent with
    | none => path
    | some par => cleanPath (par.path ++ "/" ++ path)

/-- `addRouteRecord(pathList, pathMap, nameMap, route, parent, matchAs)`.
The recursion into children and synthesized alias configs is driven by a
fuel argument (always sufficient for the finite configs evaluated here);
development-mode assertions and warnings are reporting-only and elided,
including the development-only skip of an alias equal to the path. -/
def addRouteRecord : Nat → RTables → RouteConfig → Option MRecord → Option String → RTables
  | 0, t, _, _, _ => t
  | Nat.succ fuel, t, route, parent, matchAs =>
    let normalizedPath := normalizePath route.path parent route.strict
    let record : MRecord := MRecord.mk normalizedPath (patSegs normalizedPath)
      (route.components.getD [("default", route.component)])
      route.name (toMParent parent) matchAs route.redirect route.beforeEnter route.meta
    -- children are added first (create-route-map.js lines 174-183)
    let t := route.children.foldl
      (fun acc child =>
        let childMatchAs := matchAs.map (fun ma => cleanPath (ma ++ "/" ++ child.path))
        addRouteRecord fuel acc child (some record) childMatchAs) t
    -- register the record when its path is new (lines 186-189)
    let t :=
      if (t.pathMap.lookup record.path).isNone then
        { t with pathList := t.pathList ++ [record.path],
                 pathMap := t.pathMap ++ [(record.path, record)] }
      else t
    -- synthesized alias siblings with matchAs = record.path || '/' (lines 192-228)
    let t := route.aliases.foldl
      (fun acc al =>
        let aliasRoute : RouteConfig :=
          RouteConfig.mk al none none none none [] route.children none [] false
        addRouteRecord fuel acc aliasRoute parent
          (some (if record.path ≠ "" then record.path else "/"))) t
    -- name registration, first binding wins (lines 233-243)
    match route.name with
    | some n =>
      if n ≠ "" ∧ (t.nameMap.lookup n).isNone then
        { t with nameMap := t.nameMap ++ [(n, record)] }
      else t
    | none => t

/-- The table accumulation of `createRouteMap` before the wildcard loop:
every top-level config added in declaration order. -/
def createRouteMapRaw (fuel : Nat) (routes : List RouteConfig) (old : RTables) : RTables :=
  routes.foldl (fun acc r => addRouteRecord fuel acc r none none) old

/-- `createRouteMap(routes, oldPathList?, oldPathMap?, oldNameMap?)`:
accumulate all records, then move every `'*'` entry of the path list to
the end. -/
def createRouteMap (fuel : Nat) (routes : List RouteConfig) (old : RTables) : RTables :=
  let t := createRouteMapRaw fuel routes old
  { t with pathList := ensureWildcardLast t.pathList }

/-! ## create-matcher.js

`match`, `_createRoute`, `redirect` and `alias` are mutually recursive
through redirect and alias resolution; JS recursion depth is modelled by
a fuel argument, with exhaustion (`MErr.overflow`) standing for the stack
overflow an unbounded redirect chain produces.  A route-level `redirect`
option given as a function is user code and may throw
(`MErr.userThrow`) — the reason transitionTo wraps the initial match in
try/catch (issue 3201). -/

inductive MErr where
  | overflow
  | userThrow (e : Nat)
deriving DecidableEq, Repr

/-- One pending call of the mutually recursive matcher functions. -/
inductive MCall where
  | mcall (raw : RawLoc) (currentRoute : Option MRoute) (redirectedFrom : Option MLoc)
  | ccall (record : Option MRecord) (location : MLoc) (redirectedFrom : Option MLoc)
  | rcall (record : MRecord) (location : MLoc)
  | acall (record : MRecord) (location : MLoc) (matchAs : String)

/-! `formatMatch` (modelled from the spec: the matched chain is the
root-to-leaf sequence of records reached by walking parent references;
util/route.js is not part of the sources). -/
mutual
def formatMatchR : MRecord → List MRecord
  | MRecord.mk p rg c n par ma rd be me =>
    formatMatchP par ++ [MRecord.mk p rg c n par ma rd be me]
def formatMatchP : MParent → List MRecord
  | MParent.root => []
  | MParent.node r => formatMatchR r
end

def formatMatch : Option MRecord → List MRecord
  | none => []
  | some r => formatMatchR r

/-- The JS-truthy path of a location (`location.path || '/'`). -/
def locPath (l : MLoc) : String :=
  if strTruthy l.path then l.path.getD "/" else "/"

/-- `createRoute(record, location, redirectedFrom, router)` (modelled from
the spec §3: a Route carries concrete path, optional name, hash, query,
params, full path `path+query+hash`, the root-to-leaf matched chain and
the optional redirected-from path; util/route.js is not part of the
sources).  The name falls back from the location to the record. -/
def createRoute (record : Option MRecord) (location : MLoc)
    (redirectedFrom : Option MLoc) : MRoute :=
  { name := if strTruthy location.name then location.name
            else record.bind MRecord.name
    path := locPath location
    hash := location.hash.getD ""
    query := location.query.getD []
    params := location.params.getD []
    fullPath := locFullPath location
    matched := formatMatch record
    redirectedFrom := redirectedFrom.map locFullPath }

/-- `resolveRecordPath(path, record)`: redirect paths resolve against the
redirecting record's parent, not the root. -/
def resolveRecordPath (path : String) (record : MRecord) : String :=
  resolvePath path (match record.parent with | MParent.node p => p.path | MParent.root => "/") true

/-- First `pathList` entry whose compiled pattern matches the path
(`for` loop of create-matcher.js lines 91-97), with the captured params. -/
def findMatch (tbl : RTables) : List String → String → Option (MRecord × List (String × String))
  | [], _ => none
  | p :: rest, path =>
    match tbl.pathMap.lookup p with
    | none => findMatch tbl rest path
    | some record =>
      let res := matchRoute record.regex path []
      if res.1 then some (record, res.2) else findMatch tbl rest path

/-- The mutually recursive matcher: `match` (`mcall`), `_createRoute`
(`ccall`), `redirect` (`rcall`) and `alias` (`acall`) of
create-matcher.js, as one fueled step function. -/
def matcherStep (tbl : RTables) (pq : Option (String → Option QueryM)) :
    Nat → MCall → Except MErr MRoute
  | 0, _ => .error .overflow
  | Nat.succ fuel, c =>
    match c with
    | .mcall raw currentRoute redirectedFrom =>
      let location := normalizeLocation raw currentRoute false pq
      if strTruthy location.name then
        match tbl.nameMap.lookup (location.name.getD "") with
        | none => .ok (createRoute none location none)
        | some record =>
          let paramNames := regexKeys record.regex
          let params0 := location.params.getD []
          let params1 :=
            match currentRoute with
            | some cur =>
              cur.params.foldl
                (fun acc kv =>
                  if (acc.lookup kv.1).isNone ∧ kv.1 ∈ paramNames then acc ++ [kv]
                  else acc) params0
            | none => params0
          let location := { location with
                            params := some params1
                            path := some (fillParams record.path params1) }
          matcherStep tbl pq fuel (.ccall (some record) location redirectedFrom)
      else if strTruthy location.path then
        let location := { location with params := some [] }
        match findMatch tbl tbl.pathList (location.path.getD "") with
        | some (record, params) =>
          matcherStep tbl pq fuel
            (.ccall (some record) { location with params := some params } redirectedFrom)
        | none => .ok (createRoute none location none)
      else .ok (createRoute none location none)
    | .ccall record location redirectedFrom =>
      match record with
      | some r =>
        if r.redirect.isSome then
          matcherStep tbl pq fuel (.rcall r (redirectedFrom.getD location))
        else if r.matchAs.isSome then
          matcherStep tbl pq fuel (.acall r location (r.matchAs.getD ""))
        else .ok (createRoute record location redirectedFrom)
      | none => .ok (createRoute none location redirectedFrom)
    | .rcall record location =>
      let rv : Except MErr RedirVal :=
        match record.redirect with
        | some (.stat v) => .ok v
        | some (.fnRet v) => .ok v
        | some (.fnThrow e) => .error (.userThrow e)
        | none => .ok .vBad
      match rv with
      | .error e => .error e
      | .ok v =>
        let v := match v with | RedirVal.vStr s => RedirVal.vObj { path := some s } | x => x
        match v with
        | RedirVal.vObj re =>
          let query := if re.query.isSome then re.query else location.query
          let hash := if re.hash.isSome then re.hash else location.hash
          let params := if re.params.isSome then re.params else location.params
          if strTruthy re.name then
            matcherStep tbl pq fuel
              (.mcall (.loc { _normalized := true, name := re.name, query := query,
                              hash := hash, params := params }) none (some location))
          else if strTruthy re.path then
            let rawPath := resolveRecordPath (re.path.getD "") record
            let resolvedPath := fillParams rawPath (params.getD [])
            matcherStep tbl pq fuel
              (.mcall (.loc { _normalized := true, path := some resolvedPath,
                              query := query, hash := hash }) none (some location))
          else .ok (createRoute none location none)
        | _ => .ok (createRoute none location none)
    | .acall _record location matchAs =>
      let aliasedPath := fillParams matchAs (location.params.getD [])
      match matcherStep tbl pq fuel
          (.mcall (.loc { _normalized := true, path := some aliasedPath }) none none) with
      | .error e => .error e
      | .ok aliasedMatch =>
        let aliasedRecord := aliasedMatch.matched.getLast?
        let location := { location with params := some aliasedMatch.params }
        matcherStep tbl pq fuel (.ccall aliasedRecord location none)

/-- The matcher's public `match(raw, currentRoute, redirectedFrom)`. -/
def matchLoc (tbl : RTables) (pq : Option (String → Option QueryM)) (fuel : Nat)
    (raw : RawLoc) (currentRoute : Option MRoute) (redirectedFrom : Option MLoc) :
    Except MErr MRoute :=
  matcherStep tbl pq fuel (.mcall raw currentRoute redirectedFrom)

/-! ## Transition engine (history/base.js)

The engine is modelled over abstract guards.  A route's object identity
(JS `===`, used for `pending === route` and for matched-record
comparison) is modelled by an `rid` field and numeric record ids.  A
guard is its id, the value its invocation passes to `proceed` (or the
exception it throws), and an arbitrary state effect standing for
anything the guard body does before calling `proceed` — e.g. starting a
new transition, which replaces `pending`.  Persisted-location writes and
callback invocations are recorded as an event list. -/

/-- A resolved route as the engine sees it. -/
structure ERoute where
  rid : Nat
  path : String := "/"
  hash : String := ""
  query : QueryM := []
  params : List (String × String) := []
  fullPath : String := "/"
  matched : List Nat := []
deriving DecidableEq, Repr

/-- Engine state: the committed `current` route and the optional
`pending` route. -/
structure EngSt where
  current : ERoute
  pending : Option ERoute := none
deriving DecidableEq, Repr

/-- The value a guard passes to its `proceed` (`next`) continuation.
`vObjLoc` is an object whose `path`/`name` are `some` exactly when the
property is a string, with its `replace` flag. -/
inductive NextArg where
  | vFalse
  | vTrue
  | vUndef
  | vErr (e : Nat)
  | vStr (s : String)
  | vObjLoc (path name : Option String) (rep : Bool)
  | vObjOther
  | vOther
deriving DecidableEq, Repr

/-- Navigation failure kinds (util/errors.js is not part of the sources;
the four kinds follow spec §7, with `errorF` for a plain error carried
through `abort`). -/
inductive Failure where
  | duplicated
  | cancelled
  | abortedF
  | redirected
  | errorF (e : Nat)
deriving DecidableEq, Repr

/-- Observable engine events: a guard invocation, an `ensureURL`
re-sync (`push` flag as passed), the `onAbort` callback with its
classified failure, a follow-up `push`/`replace` toward a redirect
target, and the `onComplete` callback. -/
inductive Ev where
  | invoked (g : Nat)
  | ensureURL (push : Bool)
  | abortCb (f : Failure)
  | doPush (a : NextArg)
  | doReplace (a : NextArg)
  | completeCb
deriving DecidableEq, Repr

/-- What a guard invocation does: call `proceed` with a value, or throw. -/
inductive GuardAct where
  | callNext (a : NextArg)
  | gthrow (e : Nat)

/-- An abstract navigation guard. -/
structure EGuard where
  gid : Nat
  eff : EngSt → EngSt
  act : GuardAct

/-- Classification of a `proceed` value by the iterator
(history/base.js lines 221-245). -/
inductive Classified where
  | vetoFalse
  | errVal (e : Nat)
  | redir (rep : Bool)
  | cont
deriving DecidableEq, Repr

def classify : NextArg → Classified
  | .vFalse => .vetoFalse
  | .vErr e => .errVal e
  | .vStr _ => .redir false
  | .vObjLoc p n rep => if p.isSome ∨ n.isSome then .redir rep else .cont
  | _ => .cont

/-- Result of one queue step. -/
inductive StepRes where
  | cont
  | halt (f : Failure)
deriving DecidableEq, Repr

/-- The `iterator(hook, next)` of `confirmTransition` (lines 216-250):
check `pending === route` before dispatching; invoke the hook; classify
the value its `proceed` receives; a thrown exception is caught and
aborted with the error. -/
def iterStep (route : ERoute) (s : EngSt) (g : EGuard) : EngSt × List Ev × StepRes :=
  if s.pending ≠ some route then
    (s, [Ev.abortCb Failure.cancelled], StepRes.halt Failure.cancelled)
  else
    let s' := g.eff s
    match g.act with
    | .gthrow e =>
      (s', [Ev.invoked g.gid, Ev.abortCb (Failure.errorF e)], .halt (Failure.errorF e))
    | .callNext a =>
      match classify a with
      | .vetoFalse =>
        (s', [Ev.invoked g.gid, Ev.ensureURL true, Ev.abortCb Failure.abortedF],
          .halt Failure.abortedF)
      | .errVal e =>
        (s', [Ev.invoked g.gid, Ev.ensureURL true, Ev.abortCb (Failure.errorF e)],
          .halt (Failure.errorF e))
      | .redir rep =>
        (s', [Ev.invoked g.gid, Ev.abortCb Failure.redirected,
              if rep then Ev.doReplace a else Ev.doPush a],
          .halt Failure.redirected)
      | .cont => (s', [Ev.invoked g.gid], .cont)

/-- `runQueue(queue, fn, cb)` (modelled from spec §4.4 step 4;
util/async.js is not part of the sources): a strict sequential
continuation chain that advances only when the current guard proceeds and
stops on abort; missing queue entries (`?NavigationGuard`) are skipped. -/
def runQueueE (route : ERoute) : EngSt → List (Option EGuard) → EngSt × List Ev × Option Failure
  | s, [] => (s, [], none)
  | s, none :: rest => runQueueE route s rest
  | s, some g :: rest =>
    let r1 := iterStep route s g
    match r1.2.2 with
    | .halt f => (r1.1, r1.2.1, some f)
    | .cont =>
      let r2 := runQueueE route r1.1 rest
      (r2.1, r1.2.1 ++ r2.2.1, r2.2.2)

/-- A component occupying one view slot of a record: per-kind in-component
guard lists (`beforeRouteLeave` / `beforeRouteUpdate` /
`beforeRouteEnter` options, empty = option absent) and whether an
instance is currently registered (`bindGuard` returns `undefined`
without one). -/
structure EComp where
  inst : Bool := true
  leave : List EGuard := []
  update : List EGuard := []
  enter : List EGuard := []

/-- An engine-side route record: id, named view-slot components, and the
per-record `beforeEnter` guard. -/
structure ERec where
  rid : Nat
  components : List (String × EComp) := []
  beforeEnter : Option EGuard := none

/-- The flat entry list produced by `flatMapComponents(records, fn)`
(modelled from spec: per-component guards record-major; the file
util/resolve-components.js is not part of the sources): one entry per
(record, component) pair; an entry is the component's bound guard list,
a hole when the option is absent or (`useInst`) no instance is bound. -/
def guardEntries (recsL : List ERec) (sel : EComp → List EGuard) (useInst : Bool) :
    List (List (Option EGuard)) :=
  recsL.flatMap (fun r => r.components.map (fun kc =>
    let gs := sel kc.2
    if gs.isEmpty then [none]
    else gs.map (fun g => if useInst && !kc.2.inst then none else some g)))

/-- `extractGuards(records, name, bind, reverse)` (lines 353-368):
entries in (record, component) order, reversed as blocks when requested,
then flattened. -/
def extractGuardsE (recsL : List ERec) (sel : EComp → List EGuard) (useInst rev : Bool) :
    List (Option EGuard) :=
  let entries := guardEntries recsL sel useInst
  (if rev then entries.reverse else entries).flatten

/-- `extractLeaveGuards(deactivated)`: `beforeRouteLeave`, reversed. -/
def extractLeaveGuards (deactivated : List ERec) : List (Option EGuard) :=
  extractGuardsE deactivated (fun c => c.leave) true true

/-- `extractUpdateHooks(updated)`: `beforeRouteUpdate`, forward. -/
def extractUpdateHooks (updated : List ERec) : List (Option EGuard) :=
  extractGuardsE updated (fun c => c.update) true false

/-- `extractEnterGuards(activated)`: `beforeRouteEnter`, forward;
`bindEnterGuard` wraps the guard (to queue post-entry callbacks) without
changing its id, outcome or order, so the wrapper is elided. -/
def extractEnterGuards (activated : List ERec) : List (Option EGuard) :=
  extractGuardsE activated (fun c => c.enter) false false

/-- `isSameRoute` (modelled from spec §3: two Routes are the same iff
path, matched-chain length/identity, query and params are all equal;
util/route.js is not part of the sources). -/
def isSameRouteSpec (a b : ERoute) : Bool :=
  decide (a.path = b.path ∧ a.matched = b.matched ∧ a.query = b.query ∧ a.params = b.params)

/-- JS array indexing with a possibly negative index (`matched[len-1]`
is `undefined` for an empty chain). -/
def jsIndex (l : List Nat) (i : Int) : Option Nat :=
  if i < 0 then none else l.get? i.toNat

/-- The duplicate-navigation test of `confirmTransition` (lines 184-189):
same route by the Route equality rule, same last index, and identical
deepest record. -/
def dupCheck (route current : ERoute) : Bool :=
  isSameRouteSpec route current &&
  decide ((route.matched.length : Int) - 1 = (current.matched.length : Int) - 1) &&
  decide (jsIndex route.matched ((route.matched.length : Int) - 1) =
    jsIndex current.matched ((current.matched.length : Int) - 1))

/-- `this.pending = route` at the top of `confirmTransition` (line 161):
an accepted target immediately replaces any pending one. -/
def confirmEntry (s : EngSt) (route : ERoute) : EngSt :=
  { s with pending := some route }

/-- The two guard queues of `confirmTransition` (lines 202-213 and
255-256): leave guards (deactivated, reversed), global before hooks,
update guards (updated), per-record `beforeEnter` (activated), one async
resolution entry; then enter guards (activated) and global resolve
hooks. -/
def confirmQueues (current route : ERoute) (recs : Nat → ERec)
    (beforeHooks resolveHooks : List (Option EGuard)) (asyncG : EGuard) :
    List (Option EGuard) × List (Option EGuard) :=
  let rq := resolveQueue current.matched route.matched
  (extractLeaveGuards (rq.2.2.map recs)
      ++ beforeHooks
      ++ extractUpdateHooks (rq.1.map recs)
      ++ (rq.2.1.map (fun r => (recs r).beforeEnter))
      ++ [some asyncG],
    extractEnterGuards (rq.2.1.map recs) ++ resolveHooks)

/-- The final commit of `confirmTransition` (lines 258-265): check
`pending === route` once more; on success clear `pending`, commit
`current` (via `onComplete` → `updateRoute`), else abort `cancelled`. -/
def confirmFinish (route : ERoute) (s : EngSt) : EngSt × List Ev × Option Failure :=
  if s.pending ≠ some route then
    (s, [Ev.abortCb Failure.cancelled], some Failure.cancelled)
  else ({ current := route, pending := none }, [Ev.completeCb], none)

/-- `confirmTransition(route, onComplete, onAbort)` (lines 154-273):
duplicate check (after `pending` is taken), diff via `resolveQueue`,
first guard queue (leave, global before, update, beforeEnter, async
resolution), second queue (enter, global resolve), final
`pending === route` check, and commit.  `recs` resolves record ids;
`asyncG` is the single async-component resolution queue entry. -/
def confirmRun (s0 : EngSt) (route : ERoute) (recs : Nat → ERec)
    (beforeHooks resolveHooks : List (Option EGuard)) (asyncG : EGuard) :
    EngSt × List Ev × Option Failure :=
  let current := s0.current
  let s1 := confirmEntry s0 route
  if dupCheck route current then
    (s1, [Ev.ensureURL false, Ev.abortCb Failure.duplicated], some Failure.duplicated)
  else
    let qs := confirmQueues current route recs beforeHooks resolveHooks asyncG
    let r1 := runQueueE route s1 qs.1
    match r1.2.2 with
    | some f => (r1.1, r1.2.1, some f)
    | none =>
      let r2 := runQueueE route r1.1 qs.2
      match r2.2.2 with
      | some f => (r2.1, r1.2.1 ++ r2.2.1, some f)
      | none =>
        let rF := confirmFinish route r2.1
        (rF.1, r1.2.1 ++ r2.2.1 ++ rF.2.1, rF.2.2)

/-! ## Claim theorems -/

/-- C2: for every pair of matched chains, `confirmTransition`'s diff
(`resolveQueue`) computes the first index `i` at which the chains diverge
by record identity — every index below `i` agrees, and at `i` (when `i`
is not the common exhaustion point) the chains differ — and returns
`updated = next.take i`, `activated = next.drop i` (root-to-leaf order),
`deactivated = current.drop i`: exactly the target's suffix past the
common stem is activated and exactly the current's suffix past the
common stem is deactivated. -/
theorem c2_resolveQueue_splits_at_first_divergence {α : Type} [DecidableEq α]
    (current next : List α) :
    resolveQueue current next =
      (next.take (resolveQueueIdx current next),
        next.drop (resolveQueueIdx current next),
        current.drop (resolveQueueIdx current next)) ∧
    (∀ j, j < resolveQueueIdx current next → current.get? j = next.get? j) ∧
    (resolveQueueIdx current next < max current.length next.length →
      current.get? (resolveQueueIdx current next) ≠ next.get? (resolveQueueIdx current next)) ∧
    resolveQueueIdx current next ≤ current.length ∧
    resolveQueueIdx current next ≤ next.length := by
  refine ⟨rfl, ?_, ?_, ?_, ?_⟩
  · intro j hj
    exact resolveQueueIdx_agree current next j hj
  · exact resolveQueueIdx_diverge current next
  · exact resolveQueueIdx_le_left current next
  · exact resolveQueueIdx_le_right current next

theorem c2_witness :
    resolveQueue [1, 2, 5] [1, 2, 3, 4] = ([1, 2], [3, 4], [5]) ∧
    [1, 2, 5].get? (resolveQueueIdx [1, 2, 5] [1, 2, 3, 4]) ≠
      [1, 2, 3, 4].get? (resolveQueueIdx [1, 2, 5] [1, 2, 3, 4]) := by
  have h := c2_resolveQueue_splits_at_first_divergence (α := Nat) [1, 2, 5] [1, 2, 3, 4]
  exact ⟨by decide, h.2.2.1 (by decide)⟩

/-- C8: for every route configuration array (and fuel, and pre-existing
tables), the pathList produced by `createRouteMap` is the stable
partition of the declaration-order accumulation: every non-`'*'` entry
first, in declaration order, then every `'*'` entry, in declaration
order — wildcards are the fallback of last resort. -/
theorem c8_wildcards_moved_to_end (fuel : Nat) (routes : List RouteConfig) (old : RTables) :
    (createRouteMap fuel routes old).pathList =
      (createRouteMapRaw fuel routes old).pathList.filter (fun p => p ≠ "*") ++
        (createRouteMapRaw fuel routes old).pathList.filter (fun p => p = "*") := by
  simpa [createRouteMap] using ensureWildcardLast_eq (createRouteMapRaw fuel routes old).pathList

theorem relativeParamsBranch_flagged (next : MLoc) (cur : MRoute) :
    (relativeParamsBranch next cur)._normalized = true := by
  unfold relativeParamsBranch
  dsimp only
  split_ifs <;> rfl

theorem pathBranch_flagged (next : MLoc) (current : Option MRoute) (append : Bool)
    (pq : Option (String → Option QueryM)) :
    (pathBranch next current append pq)._normalized = true := rfl

/-- Every `normalizeLocation` output is either flagged `_normalized` (the
relative-params and path-resolution branches, and pass-through of an
already-flagged input) or is the unflagged named-location copy, which
still carries a truthy name. -/
theorem normalizeLocation_branches (raw : RawLoc) (current : Option MRoute) (append : Bool)
    (pq : Option (String → Option QueryM)) :
    (normalizeLocation raw current append pq)._normalized = true ∨
    ((normalizeLocation raw current append pq)._normalized = false ∧
      strTruthy (normalizeLocation raw current append pq).name = true) := by
  unfold normalizeLocation
  rcases raw with s | l
  · -- a string raw becomes `{ path: raw }`: no flag, no name, no params
    left
    simp [strTruthy, pathBranch_flagged]
  · dsimp only
    by_cases h1 : l._normalized
    · left
      simp [h1]
    · simp only [Bool.not_eq_true] at h1
      by_cases h2 : strTruthy l.name = true
      · right
        simp [h1, h2]
      · simp only [Bool.not_eq_true] at h2
        rcases current with _ | cur
        · left
          simp [h1, h2, pathBranch_flagged]
        · by_cases h3 : strTruthy l.path = true
          · left
            simp [h1, h2, h3, pathBranch_flagged]
          · simp only [Bool.not_eq_true] at h3
            by_cases h4 : l.params.isSome = true
            · left
              simp [h1, h2, h3, h4, relativeParamsBranch_flagged]
            · simp only [Bool.not_eq_true] at h4
              left
              simp [h1, h2, h3, h4, pathBranch_flagged]

/-- C10: `normalizeLocation` is idempotent up to structural equality —
re-applying it to its own output with the same current route, append flag
and router returns an equal Location.  The outputs of the path-resolution
and relative-params branches carry `_normalized: true` and are returned
unchanged by the first branch, while a named location is not flagged and
is re-copied (identically, under value semantics) on each application. -/
theorem c10_normalizeLocation_idempotent (raw : RawLoc) (current : Option MRoute)
    (append : Bool) (pq : Option (String → Option QueryM)) :
    normalizeLocation (.loc (normalizeLocation raw current append pq)) current append pq =
      normalizeLocation raw current append pq ∧
    (∀ l : MLoc, l._normalized = false → strTruthy l.name = true →
      normalizeLocation (.loc l) current append pq = l ∧
      (normalizeLocation (.loc l) current append pq)._normalized = false) ∧
    ((normalizeLocation raw current append pq)._normalized = true ∨
      ((normalizeLocation raw current append pq)._normalized = false ∧
        strTruthy (normalizeLocation raw current append pq).name = true)) := by
  refine ⟨?_, ?_, normalizeLocation_branches raw current append pq⟩
  · rcases normalizeLocation_branches raw current append pq with h | ⟨h1, h2⟩
    · generalize hgen : normalizeLocation raw current append pq = r at h ⊢
      simp [normalizeLocation, h]
    · generalize hgen : normalizeLocation raw current append pq = r at h1 h2 ⊢
      simp [normalizeLocation, h1, h2]
  · intro l h1 h2
    constructor
    · simp [normalizeLocation, h1, h2]
    · simp [normalizeLocation, h1, h2]

theorem c10_witness :
    normalizeLocation (.loc (normalizeLocation (RawLoc.str "/a?x=1") none false none))
        none false none =
      normalizeLocation (RawLoc.str "/a?x=1") none false none ∧
    normalizeLocation (.loc { name := some "user" }) none false none =
      ({ name := some "user" } : MLoc) := by
  have h := c10_normalizeLocation_idempotent (RawLoc.str "/a?x=1") none false none
  exact ⟨h.1, (h.2.1 { name := some "user" } rfl (by decide)).1⟩

/-! ## Matcher invariants -/

theorem formatMatch_getLast (rec : MRecord) :
    (formatMatch (some rec)).getLast? = some rec := by
  cases rec with
  | mk p rg c n par ma rd be me => simp [formatMatch, formatMatchR]

theorem formatMatch_none : formatMatch none = [] := rfl

/-- Any successfully matched route's deepest matched record does not
redirect: `_createRoute` hands every redirecting record to `redirect`,
which re-matches, so only non-redirecting records reach `createRoute`. -/
theorem matcherStep_last_no_redirect (tbl : RTables) (pq : Option (String → Option QueryM)) :
    ∀ fuel c r, matcherStep tbl pq fuel c = .ok r →
      ∀ rec, r.matched.getLast? = some rec → rec.redirect = none := by
  intro fuel
  induction fuel with
  | zero =>
    intro c r h
    simp [matcherStep] at h
  | succ n ih =>
    intro c r h rec hlast
    cases c with
    | mcall raw cur rf =>
      simp only [matcherStep] at h
      split at h
      · split at h
        · injection h with h
          subst h
          simp [createRoute, formatMatch] at hlast
        · exact ih _ r h rec hlast
      · split at h
        · split at h
          · exact ih _ r h rec hlast
          · injection h with h
            subst h
            simp [createRoute, formatMatch] at hlast
        · injection h with h
          subst h
          simp [createRoute, formatMatch] at hlast
    | ccall record location rf =>
      simp only [matcherStep] at h
      split at h
      · rename_i rr
        split at h
        · exact ih _ r h rec hlast
        · split at h
          · exact ih _ r h rec hlast
          · rename_i hrd hma
            injection h with h
            subst h
            simp only [createRoute] at hlast
            rw [formatMatch_getLast] at hlast
            injection hlast with hlast
            subst hlast
            simpa using hrd
      · injection h with h
        subst h
        simp [createRoute, formatMatch] at hlast
    | rcall record location =>
      simp only [matcherStep] at h
      split at h
      · exact absurd h (by simp)
      · split at h
        · split at h
          · exact ih _ r h rec hlast
          · split at h
            · exact ih _ r h rec hlast
            · injection h with h
              subst h
              simp [createRoute, formatMatch] at hlast
        · injection h with h
          subst h
          simp [createRoute, formatMatch] at hlast
    | acall record location ma =>
      simp only [matcherStep] at h
      split at h
      · exact absurd h (by simp)
      · exact ih _ r h rec hlast

/-- A table none of whose records is an alias record (`matchAs` absent):
redirect chains over such tables never enter `alias`, which is the one
path that re-matches without forwarding `redirectedFrom`. -/
def noAliasTable (tbl : RTables) : Prop :=
  (∀ p r, tbl.pathMap.lookup p = some r → r.matchAs = none) ∧
  (∀ nm r, tbl.nameMap.lookup nm = some r → r.matchAs = none)

/-- Provenance conclusion per matcher call: a call that was handed a
`redirectedFrom` produces a route stamped with that location's full path;
a `redirect` call stamps the location it was given (the original
location, or the original `redirectedFrom`). -/
def provConc : MCall → MRoute → Prop
  | .mcall _ _ rf, r => ∀ l, rf = some l → r.redirectedFrom = some (locFullPath l)
  | .ccall _ _ rf, r => ∀ l, rf = some l → r.redirectedFrom = some (locFullPath l)
  | .rcall _ loc, r => r.redirectedFrom = some (locFullPath loc)
  | .acall _ _ _, _ => True

/-- Side condition: `_createRoute` is only applied to non-alias records. -/
def callOK : MCall → Prop
  | .ccall rec _ _ => ∀ rr, rec = some rr → rr.matchAs = none
  | _ => True

theorem findMatch_lookup (tbl : RTables) :
    ∀ (l : List String) (path : String) (rec : MRecord) (ps : List (String × String)),
      findMatch tbl l path = some (rec, ps) → ∃ p, tbl.pathMap.lookup p = some rec := by
  intro l
  induction l with
  | nil =>
    intro path rec ps h
    simp [findMatch] at h
  | cons p rest ih =>
    intro path rec ps h
    simp only [findMatch] at h
    split at h
    · exact ih path rec ps h
    · rename_i record heq
      split at h
      · injection h with h
        exact ⟨p, by rw [heq]; exact congrArg some (congrArg Prod.fst h)⟩
      · exact ih path rec ps h

/-- Redirect provenance: over a table without alias records, every
successful match with a nonempty matched chain carries `redirectedFrom`
equal to the full path of the location it was asked to stamp — each
redirect hop passes the original location (or the original
`redirectedFrom`) to the recursive `match`. -/
theorem matcherStep_prov (tbl : RTables) (pq : Option (String → Option QueryM))
    (hA : noAliasTable tbl) :
    ∀ fuel c r, callOK c → matcherStep tbl pq fuel c = .ok r → r.matched ≠ [] →
      provConc c r := by
  intro fuel
  induction fuel with
  | zero =>
    intro c r _ h
    simp [matcherStep] at h
  | succ n ih =>
    intro c r hok h hm
    cases c with
    | mcall raw cur rf =>
      simp only [matcherStep] at h
      simp only [provConc]
      intro l hl
      split at h
      · split at h
        · injection h with h
          subst h
          simp [createRoute, formatMatch] at hm
        · rename_i record heq
          have hok' : ∀ (loc' : MLoc) (rf' : Option MLoc),
              callOK (.ccall (some record) loc' rf') := by
            intro loc' rf' rr hrr
            injection hrr with hrr
            subst hrr
            exact hA.2 _ _ heq
          have hp := ih _ r (hok' _ _) h hm
          simp only [provConc] at hp
          exact hp l hl
      · split at h
        · split at h
          · rename_i rec0 ps0 heq
            have hok' : ∀ (loc' : MLoc) (rf' : Option MLoc),
                callOK (.ccall (some rec0) loc' rf') := by
              intro loc' rf' rr hrr
              injection hrr with hrr
              subst hrr
              obtain ⟨pp, hpp⟩ := findMatch_lookup tbl tbl.pathList _ rec0 ps0 heq
              exact hA.1 _ _ hpp
            have hp := ih _ r (hok' _ _) h hm
            simp only [provConc] at hp
            exact hp l hl
          · injection h with h
            subst h
            simp [createRoute, formatMatch] at hm
        · injection h with h
          subst h
          simp [createRoute, formatMatch] at hm
    | ccall record location rf =>
      simp only [provConc]
      intro l hl
      subst hl
      simp only [matcherStep] at h
      split at h
      · rename_i rr
        split at h
        · simp only [Option.getD_some] at h
          rename_i rr _
          have hok2 : callOK (MCall.rcall rr l) := by simp [callOK]
          have hp := ih _ r hok2 h hm
          simp only [provConc] at hp
          exact hp
        · split at h
          · rename_i hrd hma
            have := hok rr rfl
            rw [this] at hma
            simp at hma
          · injection h with h
            subst h
            simp [createRoute]
      · injection h with h
        subst h
        simp [createRoute]
    | rcall record location =>
      simp only [provConc]
      simp only [matcherStep] at h
      split at h
      · exact absurd h (by simp)
      · split at h
        · split at h
          · have hp := ih _ r (by simp [callOK]) h hm
            simp only [provConc] at hp
            exact hp location rfl
          · split at h
            · have hp := ih _ r (by simp [callOK]) h hm
              simp only [provConc] at hp
              exact hp location rfl
            · injection h with h
              subst h
              simp [createRoute, formatMatch] at hm
        · injection h with h
          subst h
          simp [createRoute, formatMatch] at hm
    | acall record location ma =>
      simp only [provConc]

/-! ## Concrete example tables -/

/-- `{path:'/a', redirect:'/b'}`. -/
def cfgA6 : RouteConfig :=
  RouteConfig.mk "/a" none none none (some (RedirectSpec.stat (RedirVal.vStr "/b"))) []
    [] none [] false

/-- `{path:'/b', component: X}` with `X` tagged `1`. -/
def cfgB6 : RouteConfig := RouteConfig.mk "/b" none (some 1) none none [] [] none [] false

def tbl6 : RTables := createRouteMap 10 [cfgA6, cfgB6] {}

/-- `{path:'/a', component: Z, alias:'/b'}` with `Z` tagged `3`. -/
def cfgZ7 : RouteConfig := RouteConfig.mk "/a" none (some 3) none none ["/b"] [] none [] false

def tbl7 : RTables := createRouteMap 10 [cfgZ7] {}

/-- `{path:'/t', redirect: () => { throw e7 }}`: a function redirect
whose invocation throws. -/
def cfgT9 : RouteConfig :=
  RouteConfig.mk "/t" none none none (some (RedirectSpec.fnThrow 7)) [] [] none [] false

def tbl9 : RTables := createRouteMap 10 [cfgT9] {}

/-- C6: over tables whose records are not aliases, a chain of path
redirects resolves to the ultimate non-redirecting record — the deepest
matched record of any successful match never redirects — and each hop
passes the original location (or the original `redirectedFrom`) to the
recursive match, so the result is stamped with the originally requested
full path.  In particular, with configs
`[{path:'/a', redirect:'/b'}, {path:'/b', component: X}]`, resolving
`'/a'` yields a Route whose matched chain is the single record with path
`'/b'` and whose `redirectedFrom` is `'/a'`. -/
theorem c6_redirect_chain :
    (∀ (tbl : RTables) (pq : Option (String → Option QueryM)) (fuel : Nat)
        (raw : RawLoc) (cur : Option MRoute) (rf : Option MLoc) (r : MRoute)
        (rec : MRecord),
      matchLoc tbl pq fuel raw cur rf = .ok r → r.matched.getLast? = some rec →
        rec.redirect = none) ∧
    (∀ (tbl : RTables) (pq : Option (String → Option QueryM)), noAliasTable tbl →
      ∀ (fuel : Nat) (raw : RawLoc) (cur : Option MRoute) (l : MLoc) (r : MRoute),
        matchLoc tbl pq fuel raw cur (some l) = .ok r → r.matched ≠ [] →
          r.redirectedFrom = some (locFullPath l)) ∧
    (matchLoc tbl6 none 10 (RawLoc.str "/a") none none).toOption.map
        (fun r => (r.path, r.matched.map MRecord.path, r.redirectedFrom)) =
      some ("/b", ["/b"], some "/a") := by
  refine ⟨?_, ?_, rfl⟩
  · intro tbl pq fuel raw cur rf r rec h hlast
    exact matcherStep_last_no_redirect tbl pq fuel _ r h rec hlast
  · intro tbl pq hA fuel raw cur l r h hm
    have hp := matcherStep_prov tbl pq hA fuel _ r (by simp [callOK]) h hm
    simp only [provConc] at hp
    exact hp l rfl

theorem c6_witness :
    ((((matchLoc tbl6 none 10 (RawLoc.str "/a") none none).toOption.getD {}).matched.getLast?).getD
        (MRecord.mk "" [] [] none MParent.root none none none [])).redirect = none := by
  exact c6_redirect_chain.1 tbl6 none 10 (RawLoc.str "/a") none none _ _ (by rfl) (by rfl)

/-- C7 counterexample: with config `{path:'/a', component: Z}` and
`alias:'/b'`, resolving `'/b'` yields a Route whose own path is `'/b'`
and which renders `Z`, but the matched chain's deepest record is the
canonical record with path `'/a'` — not the alias record with path
`'/b'` as the claim states. -/
theorem c7_counterexample :
    (matchLoc tbl7 none 10 (RawLoc.str "/b") none none).toOption.map
        (fun r => (r.path, r.matched.map MRecord.path, r.matched.map MRecord.components)) =
      some ("/b", ["/a"], [[("default", some 3)]]) ∧
    (matchLoc tbl7 none 10 (RawLoc.str "/b") none none).toOption.map
        (fun r => r.matched.map MRecord.path) ≠ some ["/b"] := by
  exact ⟨rfl, by decide⟩

/-- C7 (amended): alias resolution fills the canonical pattern with the
location's params, matches it internally, and on success builds the
final Route from the *canonical match's deepest record* — so the
canonical record, with its own path, is the deepest record of the
matched chain, while the Route keeps the alias location's path — taking
the canonical route's resolved params.  In particular the example config
yields Route path `'/b'`, deepest record path `'/a'`, rendering `Z`. -/
theorem c7_alias_uses_canonical_record :
    (∀ (tbl : RTables) (pq : Option (String → Option QueryM)) (m : Nat)
        (rec : MRecord) (loc : MLoc) (ma : String) (cr : MRoute) (ar : MRecord),
      matcherStep tbl pq (Nat.succ m)
          (.mcall (.loc { _normalized := true
                          path := some (fillParams ma (loc.params.getD [])) }) none none) =
        .ok cr →
      cr.matched.getLast? = some ar →
      ar.redirect = none → ar.matchAs = none →
      matcherStep tbl pq (Nat.succ (Nat.succ m)) (.acall rec loc ma) =
        .ok (createRoute (some ar) { loc with params := some cr.params } none)) ∧
    (matchLoc tbl7 none 10 (RawLoc.str "/b") none none).toOption.map
        (fun r => (r.path, r.matched.map MRecord.path, r.matched.map MRecord.components,
          r.params)) =
      some ("/b", ["/a"], [[("default", some 3)]], []) := by
  refine ⟨?_, rfl⟩
  intro tbl pq m rec loc ma cr ar hin hlast hrd hma
  rw [matcherStep]
  try dsimp only
  rw [hin]
  try dsimp only
  rw [hlast]
  try dsimp only
  rw [matcherStep]
  try dsimp only
  rw [hrd, hma]
  simp

theorem c7_witness :
    matcherStep tbl7 none 10
        (.acall (MRecord.mk "/b" (patSegs "/b") [("default", none)] none MParent.root
          (some "/a") none none [])
          { _normalized := true
            path := some "/b"
            query := some []
            hash := some ""
            params := some [] } "/a") =
      .ok (createRoute
        (some (MRecord.mk "/a" (patSegs "/a") [("default", some 3)] none MParent.root
          none none none []))
        { _normalized := true
          path := some "/b"
          query := some []
          hash := some ""
          params := some [] } none) := by
  exact c7_alias_uses_canonical_record.1 tbl7 none 8 _ _ "/a" _ _ (by rfl) (by rfl)
    (by rfl) (by rfl)

/-- The try/catch around the initial resolution in `transitionTo`
(history/base.js lines 91-102): on a matcher exception every registered
error callback is invoked with the error (first component: the
notifications delivered) and the exception is re-thrown; on success no
error callback runs. -/
def transitionToResolve (res : Except MErr MRoute) (errorCbs : List Nat) :
    List (Nat × MErr) × Except MErr MRoute :=
  match res with
  | .error e => (errorCbs.map (fun cb => (cb, e)), .error e)
  | .ok r => ([], .ok r)

/-- C9 counterexample: a route-level `redirect` option given as a
function is invoked inside `match`; when it throws, `match` raises
instead of returning a Route — refuting "match never raises an
exception". -/
theorem c9_counterexample :
    matchLoc tbl9 none 10 (RawLoc.str "/t") none none = .error (.userThrow 7) := rfl

/-- C9 (amended): whenever no record matches — unknown name, no path
pattern matching, invalid redirect spec — `match` returns a well-formed
Route whose matched chain is empty (the callers' no-match test), rather
than raising; but `match` can raise (a throwing function redirect), so
the try/catch around initial resolution in `transitionTo` is reachable,
and when it fires it notifies every error observer and re-throws, as the
propagation policy specifies. -/
theorem c9_no_match_routes_and_propagation :
    (∀ (tbl : RTables) (pq : Option (String → Option QueryM)) (n : Nat) (raw : RawLoc)
        (cur : Option MRoute) (rf : Option MLoc),
      strTruthy (normalizeLocation raw cur false pq).name = true →
      tbl.nameMap.lookup ((normalizeLocation raw cur false pq).name.getD "") = none →
      matchLoc tbl pq (Nat.succ n) raw cur rf =
        .ok (createRoute none (normalizeLocation raw cur false pq) none)) ∧
    (∀ (tbl : RTables) (pq : Option (String → Option QueryM)) (n : Nat) (raw : RawLoc)
        (cur : Option MRoute) (rf : Option MLoc),
      strTruthy (normalizeLocation raw cur false pq).name = false →
      strTruthy (normalizeLocation raw cur false pq).path = true →
      findMatch tbl tbl.pathList ((normalizeLocation raw cur false pq).path.getD "") = none →
      matchLoc tbl pq (Nat.succ n) raw cur rf =
        .ok (createRoute none
          { normalizeLocation raw cur false pq with params := some [] } none)) ∧
    (∀ (tbl : RTables) (pq : Option (String → Option QueryM)) (n : Nat) (raw : RawLoc)
        (cur : Option MRoute) (rf : Option MLoc),
      strTruthy (normalizeLocation raw cur false pq).name = false →
      strTruthy (normalizeLocation raw cur false pq).path = false →
      matchLoc tbl pq (Nat.succ n) raw cur rf =
        .ok (createRoute none (normalizeLocation raw cur false pq) none)) ∧
    (∀ (tbl : RTables) (pq : Option (String → Option QueryM)) (n : Nat)
        (rec : MRecord) (loc : MLoc),
      rec.redirect = some (RedirectSpec.stat RedirVal.vBad) →
      matcherStep tbl pq (Nat.succ n) (.rcall rec loc) =
        .ok (createRoute none loc none)) ∧
    (∀ (loc : MLoc) (rf : Option MLoc), (createRoute none loc rf).matched = []) ∧
    (∀ (e : MErr) (cbs : List Nat),
      transitionToResolve (.error e) cbs = (cbs.map (fun cb => (cb, e)), .error e)) ∧
    (∀ (r : MRoute) (cbs : List Nat),
      transitionToResolve (.ok r) cbs = ([], .ok r)) := by
  refine ⟨?_, ?_, ?_, ?_, ?_, fun _ _ => rfl, fun _ _ => rfl⟩
  · intro tbl pq n raw cur rf h1 h2
    simp [matchLoc, matcherStep, h1, h2]
  · intro tbl pq n raw cur rf h1 h2 h3
    simp [matchLoc, matcherStep, h1, h2, h3]
  · intro tbl pq n raw cur rf h1 h2
    simp [matchLoc, matcherStep, h1, h2]
  · intro tbl pq n rec loc h
    simp [matcherStep, h]
  · intro loc rf
    simp [createRoute, formatMatch]

theorem c9_witness :
    matchLoc tbl9 none (Nat.succ 9) (RawLoc.loc { name := some "nope" }) none none =
      .ok (createRoute none
        (normalizeLocation (RawLoc.loc { name := some "nope" }) none false none) none) := by
  exact c9_no_match_routes_and_propagation.1 tbl9 none 9 _ none none (by decide) (by rfl)

/-- C5: for every target Route equal to the current one under the Route
equality rule, whose matched chain also has the same length and an
identical deepest record, `confirmTransition` aborts immediately with
kind `duplicated` — after first re-syncing the persisted location
(`ensureURL()` precedes the abort callback) — and invokes no guard;
`current` is untouched. -/
theorem c5_duplicate_navigation_aborts (s0 : EngSt) (route : ERoute) (recs : Nat → ERec)
    (bh rh : List (Option EGuard)) (asyncG : EGuard)
    (h1 : isSameRouteSpec route s0.current = true)
    (h2 : route.matched.length = s0.current.matched.length)
    (h3 : jsIndex route.matched ((route.matched.length : Int) - 1) =
      jsIndex s0.current.matched ((s0.current.matched.length : Int) - 1)) :
    confirmRun s0 route recs bh rh asyncG =
      (confirmEntry s0 route, [Ev.ensureURL false, Ev.abortCb Failure.duplicated],
        some Failure.duplicated) ∧
    (∀ g, Ev.invoked g ∉ (confirmRun s0 route recs bh rh asyncG).2.1) ∧
    (confirmRun s0 route recs bh rh asyncG).1.current = s0.current := by
  have hlen : ((route.matched.length : Int) - 1 = (s0.current.matched.length : Int) - 1) := by
    rw [h2]
  have h3' : jsIndex route.matched ((s0.current.matched.length : Int) - 1) =
      jsIndex s0.current.matched ((s0.current.matched.length : Int) - 1) := hlen ▸ h3
  have hd : dupCheck route s0.current = true := by
    simp [dupCheck, h1, hlen, h3']
  have heq : confirmRun s0 route recs bh rh asyncG =
      (confirmEntry s0 route, [Ev.ensureURL false, Ev.abortCb Failure.duplicated],
        some Failure.duplicated) := by
    simp [confirmRun, hd]
  refine ⟨heq, ?_, ?_⟩
  · intro g
    rw [heq]
    simp
  · rw [heq]
    rfl

theorem c5_witness :
    confirmRun { current := { rid := 2 } } { rid := 1 } (fun _ => { rid := 0 }) [] []
        { gid := 0, eff := fun s => s, act := .callNext .vUndef } =
      (confirmEntry { current := { rid := 2 } } { rid := 1 },
        [Ev.ensureURL false, Ev.abortCb Failure.duplicated], some Failure.duplicated) := by
  exact (c5_duplicate_navigation_aborts _ _ _ _ _ _ (by decide) (by decide) (by decide)).1

/-! ## C4: guard outcome dispatch -/

def rB4 : ERoute := { rid := 1 }

def s4 : EngSt := { current := { rid := 0, path := "/x" }, pending := some rB4 }

/-- A guard whose body throws synchronously. -/
def gThrow4 : EGuard := { gid := 7, eff := fun s => s, act := .gthrow 5 }

/-- A guard that passes an error value to `proceed`. -/
def gErr4 : EGuard := { gid := 8, eff := fun s => s, act := .callNext (.vErr 5) }

/-- C4 counterexample: a synchronous exception thrown inside a guard is
caught and aborted carrying the error, but — unlike the error-value
case — without re-syncing the persisted location: the `catch` block
calls `abort(e)` only, no `ensureURL(true)`.  So the exception case is
not "treated like the error-value case" as claimed. -/
theorem c4_counterexample :
    iterStep rB4 s4 gThrow4 =
      (s4, [Ev.invoked 7, Ev.abortCb (Failure.errorF 5)], .halt (Failure.errorF 5)) ∧
    Ev.ensureURL true ∉ (iterStep rB4 s4 gThrow4).2.1 ∧
    iterStep rB4 s4 gErr4 =
      (s4, [Ev.invoked 8, Ev.ensureURL true, Ev.abortCb (Failure.errorF 5)],
        .halt (Failure.errorF 5)) ∧
    Ev.ensureURL true ∈ (iterStep rB4 s4 gErr4).2.1 := by
  refine ⟨rfl, by decide, rfl, by decide⟩

/-- C4 (amended): for every guard and value passed to `proceed`:
`false` aborts with kind `aborted` after re-syncing the persisted
location; an error value aborts carrying the error after re-syncing; a
string, or an object with a string `path` or `name`, aborts with kind
`redirected` and then issues a push (replace when the object's `replace`
flag is set); any other value continues to the next guard; and a
synchronous exception is caught and aborts carrying the error, but
without the re-sync.  When the guard's body leaves `current` alone, so
does the whole step. -/
theorem c4_guard_outcomes (route : ERoute) (s : EngSt) (g : EGuard)
    (hp : s.pending = some route) :
    (g.act = .callNext .vFalse →
      iterStep route s g =
        (g.eff s, [Ev.invoked g.gid, Ev.ensureURL true, Ev.abortCb Failure.abortedF],
          .halt Failure.abortedF)) ∧
    (∀ e, g.act = .callNext (.vErr e) →
      iterStep route s g =
        (g.eff s, [Ev.invoked g.gid, Ev.ensureURL true, Ev.abortCb (Failure.errorF e)],
          .halt (Failure.errorF e))) ∧
    (∀ str, g.act = .callNext (.vStr str) →
      iterStep route s g =
        (g.eff s, [Ev.invoked g.gid, Ev.abortCb Failure.redirected, Ev.doPush (.vStr str)],
          .halt Failure.redirected)) ∧
    (∀ p nm rep, g.act = .callNext (.vObjLoc p nm rep) → (p.isSome ∨ nm.isSome) →
      iterStep route s g =
        (g.eff s, [Ev.invoked g.gid, Ev.abortCb Failure.redirected,
            if rep then Ev.doReplace (.vObjLoc p nm rep) else Ev.doPush (.vObjLoc p nm rep)],
          .halt Failure.redirected)) ∧
    (∀ a, g.act = .callNext a → classify a = .cont →
      iterStep route s g = (g.eff s, [Ev.invoked g.gid], .cont)) ∧
    (∀ e, g.act = .gthrow e →
      iterStep route s g =
        (g.eff s, [Ev.invoked g.gid, Ev.abortCb (Failure.errorF e)],
          .halt (Failure.errorF e))) ∧
    ((∀ st, (g.eff st).current = st.current) →
      (iterStep route s g).1.current = s.current) := by
  have hnp : ¬ (s.pending ≠ some route) := by simp [hp]
  refine ⟨?_, ?_, ?_, ?_, ?_, ?_, ?_⟩
  · intro h
    simp [iterStep, hnp, h, classify]
  · intro e h
    simp [iterStep, hnp, h, classify]
  · intro str h
    simp [iterStep, hnp, h, classify]
  · intro p nm rep h hpn
    simp [iterStep, hnp, h, classify, hpn]
  · intro a h hcl
    simp [iterStep, hnp, h, hcl]
  · intro e h
    simp [iterStep, hnp, h]
  · intro hpres
    unfold iterStep
    rw [if_neg hnp]
    cases g.act with
    | gthrow e => simp [hpres s]
    | callNext a => cases hcl : classify a <;> simp [hcl, hpres s]

theorem c4_witness :
    iterStep rB4 s4 gErr4 =
      (gErr4.eff s4, [Ev.invoked gErr4.gid, Ev.ensureURL true,
        Ev.abortCb (Failure.errorF 5)], .halt (Failure.errorF 5)) := by
  exact (c4_guard_outcomes rB4 s4 gErr4 (by decide)).2.1 5 rfl

/-! ## C1: cancellation -/

/-- A guard body that never writes the committed current route (it may
still start transitions, i.e. write `pending`). -/
def guardPreserves (g : EGuard) : Prop :=
  ∀ st, (g.eff st).current = st.current

def optPreserves : Option EGuard → Prop
  | some g => guardPreserves g
  | none => True

theorem iterStep_current (route : ERoute) (s : EngSt) (g : EGuard)
    (h : guardPreserves g) : (iterStep route s g).1.current = s.current := by
  by_cases hc : s.pending ≠ some route
  · simp [iterStep, hc]
  · unfold iterStep
    rw [if_neg hc]
    cases g.act with
    | gthrow e => simp [h s]
    | callNext a => cases hcl : classify a <;> simp [hcl, h s]

theorem runQueueE_current (route : ERoute) :
    ∀ (q : List (Option EGuard)) (s : EngSt), (∀ go ∈ q, optPreserves go) →
      (runQueueE route s q).1.current = s.current := by
  intro q
  induction q with
  | nil => intro s _; rfl
  | cons go rest ih =>
    intro s hq
    cases go with
    | none =>
      have := ih s (fun go hgo => hq go (by simp [hgo]))
      simpa [runQueueE] using this
    | some g =>
      have hg : guardPreserves g := hq (some g) (by simp)
      have hrest : ∀ go ∈ rest, optPreserves go := fun go hgo => hq go (by simp [hgo])
      rcases hh : iterStep route s g with ⟨s1, evs, sr⟩
      have hcur : s1.current = s.current := by
        have := iterStep_current route s g hg
        rw [hh] at this
        exact this
      simp only [runQueueE, hh]
      cases sr with
      | halt f => simpa using hcur
      | cont =>
        have := ih s1 hrest
        simpa using this.trans hcur

/-- C1: a newly accepted transition target immediately replaces the
pending one (`confirmTransition` entry), so a superseded attempt A fails
the `pending === route` check that runs before every guard dispatch and
before the final commit: the iterator aborts A with kind `cancelled`
without invoking the guard and without touching state, a whole queue run
under a foreign pending leaves state unchanged and invokes nothing, the
final commit aborts `cancelled` under a foreign pending, `current` is
assigned only by a completed run (becoming exactly the committed
target), and an aborted run never changes `current` as long as the guard
bodies themselves leave it alone — only the superseding transition's
outcome is observable. -/
theorem c1_superseded_transition_cancelled :
    (∀ (s : EngSt) (B : ERoute),
      (confirmEntry s B).pending = some B ∧ (confirmEntry s B).current = s.current) ∧
    (∀ (A B : ERoute) (s : EngSt), A ≠ B → (confirmEntry s B).pending ≠ some A) ∧
    (∀ (route : ERoute) (s : EngSt) (g : EGuard), s.pending ≠ some route →
      iterStep route s g = (s, [Ev.abortCb Failure.cancelled], .halt Failure.cancelled)) ∧
    (∀ (route : ERoute) (q : List (Option EGuard)) (s : EngSt), s.pending ≠ some route →
      (runQueueE route s q).1 = s ∧
      (∀ g, Ev.invoked g ∉ (runQueueE route s q).2.1) ∧
      ((runQueueE route s q).2.2 = some Failure.cancelled ∨ (runQueueE route s q).2.2 = none)) ∧
    (∀ (route : ERoute) (s : EngSt), s.pending ≠ some route →
      confirmFinish route s = (s, [Ev.abortCb Failure.cancelled], some Failure.cancelled)) ∧
    (∀ (s0 : EngSt) (route : ERoute) (recs : Nat → ERec)
        (bh rh : List (Option EGuard)) (asyncG : EGuard),
      (confirmRun s0 route recs bh rh asyncG).2.2 = none →
      (confirmRun s0 route recs bh rh asyncG).1 = { current := route, pending := none }) ∧
    (∀ (s0 : EngSt) (route : ERoute) (recs : Nat → ERec)
        (bh rh : List (Option EGuard)) (asyncG : EGuard),
      (∀ go ∈ (confirmQueues s0.current route recs bh rh asyncG).1 ++
          (confirmQueues s0.current route recs bh rh asyncG).2, optPreserves go) →
      (confirmRun s0 route recs bh rh asyncG).2.2 ≠ none →
      (confirmRun s0 route recs bh rh asyncG).1.current = s0.current) := by
  refine ⟨?_, ?_, ?_, ?_, ?_, ?_, ?_⟩
  · intro s B
    exact ⟨rfl, rfl⟩
  · intro A B s hAB
    simp [confirmEntry]
    intro h
    exact hAB h.symm
  · intro route s g h
    simp [iterStep, h]
  · intro route q
    induction q with
    | nil =>
      intro s h
      exact ⟨rfl, by simp [runQueueE], Or.inr rfl⟩
    | cons go rest ih =>
      intro s h
      cases go with
      | none => simpa [runQueueE] using ih s h
      | some g =>
        have hstep : iterStep route s g =
            (s, [Ev.abortCb Failure.cancelled], .halt Failure.cancelled) := by
          simp [iterStep, h]
        simp [runQueueE, hstep]
  · intro route s h
    simp [confirmFinish, h]
  · intro s0 route recs bh rh asyncG h
    by_cases hd : dupCheck route s0.current = true
    · simp [confirmRun, hd] at h
    · simp only [confirmRun, hd] at h ⊢
      rcases h1 : runQueueE route (confirmEntry s0 route)
          (confirmQueues s0.current route recs bh rh asyncG).1 with ⟨sa, ea, fa⟩
      simp only [h1] at h ⊢
      cases fa with
      | some f => simp at h
      | none =>
        rcases h2 : runQueueE route sa
            (confirmQueues s0.current route recs bh rh asyncG).2 with ⟨sb, eb, fb⟩
        simp only [h2] at h ⊢
        cases fb with
        | some f => simp at h
        | none =>
          simp only [confirmFinish] at h ⊢
          by_cases hc : sb.pending ≠ some route
          · simp [hc] at h
          · simp [hc]
  · intro s0 route recs bh rh asyncG hpres h
    have hpres1 : ∀ go ∈ (confirmQueues s0.current route recs bh rh asyncG).1,
        optPreserves go := fun go hgo => hpres go (by simp [hgo])
    have hpres2 : ∀ go ∈ (confirmQueues s0.current route recs bh rh asyncG).2,
        optPreserves go := fun go hgo => hpres go (by simp [hgo])
    by_cases hd : dupCheck route s0.current = true
    · simp [confirmRun, hd, confirmEntry]
    · simp only [confirmRun, hd] at h ⊢
      rcases h1 : runQueueE route (confirmEntry s0 route)
          (confirmQueues s0.current route recs bh rh asyncG).1 with ⟨sa, ea, fa⟩
      have hca : sa.current = s0.current := by
        have := runQueueE_current route
          (confirmQueues s0.current route recs bh rh asyncG).1 (confirmEntry s0 route) hpres1
        rw [h1] at this
        exact this
      simp only [h1] at h ⊢
      cases fa with
      | some f => simpa using hca
      | none =>
        rcases h2 : runQueueE route sa
            (confirmQueues s0.current route recs bh rh asyncG).2 with ⟨sb, eb, fb⟩
        have hcb : sb.current = s0.current := by
          have := runQueueE_current route
            (confirmQueues s0.current route recs bh rh asyncG).2 sa hpres2
          rw [h2] at this
          exact this.trans hca
        simp only [h2] at h ⊢
        cases fb with
        | some f => simpa using hcb
        | none =>
          simp only [confirmFinish] at h ⊢
          by_cases hc : sb.pending ≠ some route
          · simpa [hc] using hcb
          · simp [hc] at h

def eA1 : ERoute := { rid := 1, path := "/a" }

def eB1 : ERoute := { rid := 2, path := "/b" }

def gCont1 : EGuard := { gid := 3, eff := fun s => s, act := .callNext .vUndef }

theorem c1_witness :
    iterStep eA1 (confirmEntry { current := eA1 } eB1) gCont1 =
      (confirmEntry { current := eA1 } eB1, [Ev.abortCb Failure.cancelled],
        .halt Failure.cancelled) := by
  have h := c1_superseded_transition_cancelled
  exact h.2.2.1 eA1 _ gCont1 (h.2.1 eA1 eB1 _ (by decide))

/-! ## C3: guard queue order -/

/-- A queue entry that continues: the guard body leaves state alone and
its `proceed` value classifies as continue. -/
def optCont : Option EGuard → Prop
  | none => True
  | some g => (∀ st, g.eff st = st) ∧
      ∃ a, g.act = GuardAct.callNext a ∧ classify a = Classified.cont

/-- The invocation events of the guards actually present in a queue, in
queue order. -/
def invokedOf (q : List (Option EGuard)) : List Ev :=
  (q.filterMap id).map (fun g => Ev.invoked g.gid)

theorem invokedOf_append (a b : List (Option EGuard)) :
    invokedOf (a ++ b) = invokedOf a ++ invokedOf b := by
  simp [invokedOf, List.filterMap_append]

theorem runQueueE_all_cont (route : ERoute) :
    ∀ (q : List (Option EGuard)) (s : EngSt), s.pending = some route →
      (∀ go ∈ q, optCont go) → runQueueE route s q = (s, invokedOf q, none) := by
  intro q
  induction q with
  | nil =>
    intro s _ _
    simp [runQueueE, invokedOf]
  | cons go rest ih =>
    intro s hp hq
    have hrest : ∀ go ∈ rest, optCont go := fun go hgo => hq go (by simp [hgo])
    cases go with
    | none => simpa [runQueueE, invokedOf] using ih s hp hrest
    | some g =>
      obtain ⟨heff, a, hact, hcl⟩ := hq (some g) (by simp)
      have hstep : iterStep route s g = (s, [Ev.invoked g.gid], .cont) := by
        have hnp : ¬ (s.pending ≠ some route) := by simp [hp]
        simp [iterStep, hnp, hact, hcl, heff s]
      simp only [runQueueE, hstep]
      rw [ih s hp hrest]
      simp [invokedOf]

/-- C3: for every confirmed (non-duplicate) transition whose guards all
continue, the run invokes exactly: the leave guards of the deactivated
records (the flattened (record, component) blocks, reversed —
innermost-first), then the global before hooks in registration order,
then the update guards of the updated records root-to-leaf, then the
`beforeEnter` guards of the activated records root-to-leaf, then the
single async-components resolution entry; only after that whole queue
does the second queue run — the enter guards of the activated records
root-to-leaf followed by the global resolve hooks — and the two queues
never interleave: the full event trace is the first queue's invocations,
then the second's, then the completion callback. -/
theorem c3_guard_queue_order (s0 : EngSt) (route : ERoute) (recs : Nat → ERec)
    (bh rh : List (Option EGuard)) (asyncG : EGuard)
    (hdup : dupCheck route s0.current = false)
    (hcont : ∀ go ∈ (confirmQueues s0.current route recs bh rh asyncG).1 ++
        (confirmQueues s0.current route recs bh rh asyncG).2, optCont go) :
    confirmRun s0 route recs bh rh asyncG =
      ({ current := route, pending := none },
        invokedOf (confirmQueues s0.current route recs bh rh asyncG).1 ++
          (invokedOf (confirmQueues s0.current route recs bh rh asyncG).2 ++
            [Ev.completeCb]), none) ∧
    (confirmQueues s0.current route recs bh rh asyncG).1 =
      extractLeaveGuards ((resolveQueue s0.current.matched route.matched).2.2.map recs)
        ++ bh
        ++ extractUpdateHooks ((resolveQueue s0.current.matched route.matched).1.map recs)
        ++ ((resolveQueue s0.current.matched route.matched).2.1.map
            (fun r => (recs r).beforeEnter))
        ++ [some asyncG] ∧
    (confirmQueues s0.current route recs bh rh asyncG).2 =
      extractEnterGuards ((resolveQueue s0.current.matched route.matched).2.1.map recs)
        ++ rh ∧
    invokedOf (confirmQueues s0.current route recs bh rh asyncG).1 =
      invokedOf (extractLeaveGuards
          ((resolveQueue s0.current.matched route.matched).2.2.map recs))
        ++ invokedOf bh
        ++ invokedOf (extractUpdateHooks
            ((resolveQueue s0.current.matched route.matched).1.map recs))
        ++ invokedOf ((resolveQueue s0.current.matched route.matched).2.1.map
            (fun r => (recs r).beforeEnter))
        ++ [Ev.invoked asyncG.gid] ∧
    invokedOf (confirmQueues s0.current route recs bh rh asyncG).2 =
      invokedOf (extractEnterGuards
          ((resolveQueue s0.current.matched route.matched).2.1.map recs))
        ++ invokedOf rh ∧
    extractLeaveGuards ((resolveQueue s0.current.matched route.matched).2.2.map recs) =
      ((guardEntries ((resolveQueue s0.current.matched route.matched).2.2.map recs)
          (fun c => c.leave) true).reverse).flatten := by
  have hq1 : ∀ go ∈ (confirmQueues s0.current route recs bh rh asyncG).1, optCont go :=
    fun go hgo => hcont go (by simp [hgo])
  have hq2 : ∀ go ∈ (confirmQueues s0.current route recs bh rh asyncG).2, optCont go :=
    fun go hgo => hcont go (by simp [hgo])
  have hr1 := runQueueE_all_cont route (confirmQueues s0.current route recs bh rh asyncG).1
    (confirmEntry s0 route) rfl hq1
  have hr2 := runQueueE_all_cont route (confirmQueues s0.current route recs bh rh asyncG).2
    (confirmEntry s0 route) rfl hq2
  refine ⟨?_, rfl, rfl, ?_, ?_, rfl⟩
  · simp only [confirmRun, hdup]
    rw [hr1]
    simp only
    rw [hr2]
    simp only [confirmFinish]
    simp [confirmEntry]
  · simp [confirmQueues, invokedOf_append, invokedOf]
  · simp [confirmQueues, invokedOf_append]

def gB3 : EGuard := { gid := 21, eff := fun s => s, act := .callNext .vUndef }

def gBE3 : EGuard := { gid := 22, eff := fun s => s, act := .callNext .vUndef }

def gEnt3 : EGuard := { gid := 23, eff := fun s => s, act := .callNext .vUndef }

def gAsync3 : EGuard := { gid := 24, eff := fun s => s, act := .callNext .vUndef }

def wRec3 : ERec :=
  { rid := 5
    components := [("default", { inst := true, leave := [], update := [], enter := [gEnt3] })]
    beforeEnter := some gBE3 }

def s03 : EngSt := { current := { rid := 0 } }

def route3 : ERoute := { rid := 9, path := "/x", matched := [5] }

theorem c3_witness :
    confirmRun s03 route3 (fun _ => wRec3) [some gB3] [] gAsync3 =
      ({ current := route3, pending := none },
        [Ev.invoked 21, Ev.invoked 22, Ev.invoked 24, Ev.invoked 23, Ev.completeCb],
        none) := by
  have h := c3_guard_queue_order s03 route3 (fun _ => wRec3) [some gB3] [] gAsync3
    (by decide)
    (by
      intro go hgo
      have hqs : (confirmQueues s03.current route3 (fun _ => wRec3) [some gB3] [] gAsync3).1 ++
          (confirmQueues s03.current route3 (fun _ => wRec3) [some gB3] [] gAsync3).2 =
          [some gB3, some gBE3, some gAsync3, some gEnt3] := rfl
      rw [hqs] at hgo
      simp only [List.mem_cons, List.not_mem_nil, or_false] at hgo
      rcases hgo with h | h | h | h <;> subst h <;>
        exact ⟨fun st => rfl, NextArg.vUndef, rfl, rfl⟩)
  exact h.1

end VueRouter
